import Mathlib

/-!
Verification of the ingestion / fingerprinting / cache subsystem of
`sophi-doc.py` via a shallow embedding.

Modelling conventions, used throughout:
* The filesystem tree handed to the program is a finite tree of
  directories and files (`Dir`, `Entries`).  The order of the lists models
  the enumeration order `os.walk` receives from the operating system.
* `st_mtime` is a float in Python; it enters the program only through its
  textual encoding `str(st_mtime)`.  A file's `mtime` field holds that
  stable textual encoding directly (distinct timestamps have distinct
  encodings), which keeps floating point out of the embedding.
* SHA-256 is abstracted as an injective function of the sequence of
  `hasher.update` chunks: a digest is represented by the chunk list itself,
  so two digests are equal exactly when the byte streams fed to the hash
  are equal (the standard collision-free abstraction).
* `str(n)` on a nonnegative integer is modelled by `decRepr`, an executable
  decimal rendering whose injectivity is proved below.
-/

/-- A decimal digit rendered as a character, as in Python's `str`. -/
def digitCh (d : Nat) : Char := Char.ofNat (48 + d % 10)

/-- Decimal digits of `n`, most significant first.  Fuel-driven structural
recursion so that the kernel can reduce it on concrete inputs. -/
def decDigits : Nat → Nat → List Char
  | 0, _ => []
  | _ + 1, 0 => []
  | fuel + 1, n + 1 => decDigits fuel ((n + 1) / 10) ++ [digitCh ((n + 1) % 10)]

/-- Models Python `str(n)` for a nonnegative integer: its decimal
representation. -/
def decRepr (n : Nat) : String :=
  if n = 0 then "0" else String.mk (decDigits (n + 1) n)

/-- Reads a digit string back to the number it denotes (proof device for
injectivity of `decRepr`). -/
def valOfDigits (cs : List Char) : Nat :=
  cs.foldl (fun a c => a * 10 + (c.toNat - 48)) 0

theorem valOfDigits_append_digit (xs : List Char) (c : Char) :
    valOfDigits (xs ++ [c]) = 10 * valOfDigits xs + (c.toNat - 48) := by
  simp [valOfDigits, List.foldl_append, Nat.mul_comm]

theorem digitCh_toNat (d : Nat) : (digitCh d).toNat = 48 + d % 10 := by
  have h : d % 10 < 10 := Nat.mod_lt _ (by omega)
  unfold digitCh
  interval_cases h : d % 10 <;> simp [h]

theorem valOfDigits_decDigits :
    ∀ fuel n, n < fuel → valOfDigits (decDigits fuel n) = n := by
  intro fuel
  induction fuel with
  | zero => intro n h; omega
  | succ f ih =>
    intro n h
    match n with
    | 0 => simp [decDigits, valOfDigits]
    | m + 1 =>
      have hq : (m + 1) / 10 < f := by
        have h1 : (m + 1) / 10 < m + 1 := Nat.div_lt_self (by omega) (by omega)
        omega
      rw [decDigits, valOfDigits_append_digit, ih _ hq, digitCh_toNat]
      omega

theorem decRepr_injective {a b : Nat} (h : decRepr a = decRepr b) : a = b := by
  have hdata := congrArg String.data h
  rcases Nat.eq_zero_or_pos a with ha | ha <;> rcases Nat.eq_zero_or_pos b with hb | hb
  · omega
  · subst ha
    simp only [decRepr, if_pos rfl, if_neg (by omega : ¬ b = 0)] at hdata
    have hv := congrArg valOfDigits hdata
    rw [valOfDigits_decDigits (b + 1) b (by omega)] at hv
    simp [valOfDigits] at hv
    omega
  · subst hb
    simp only [decRepr, if_pos rfl, if_neg (by omega : ¬ a = 0)] at hdata
    have hv := congrArg valOfDigits hdata
    rw [valOfDigits_decDigits (a + 1) a (by omega)] at hv
    simp [valOfDigits] at hv
    omega
  · simp only [decRepr, if_neg (by omega : ¬ a = 0), if_neg (by omega : ¬ b = 0)] at hdata
    have hv := congrArg valOfDigits hdata
    rwa [valOfDigits_decDigits (a + 1) a (by omega),
      valOfDigits_decDigits (b + 1) b (by omega)] at hv

/-- Models Python `str.splitlines` (restricted to the line separators
`\n`, `\r\n` and `\r`; a trailing separator does not open an extra empty
line, and the empty string has no lines). -/
def splitlinesAux : List Char → List Char → List (List Char)
  | [], acc => if acc.isEmpty then [] else [acc.reverse]
  | '\r' :: '\n' :: cs, acc => acc.reverse :: splitlinesAux cs []
  | '\n' :: cs, acc => acc.reverse :: splitlinesAux cs []
  | '\r' :: cs, acc => acc.reverse :: splitlinesAux cs []
  | c :: cs, acc => splitlinesAux cs (c :: acc)

/-- The lines of a string, as Python `content.splitlines()`. -/
def splitlines (s : String) : List String :=
  (splitlinesAux s.data []).map String.mk

/-- Models Python `f.split(sep)[0]`: the text before the first occurrence
of `sep` (the whole string when `sep` does not occur; `sep` nonempty). -/
def takeBefore (sep : List Char) : List Char → List Char
  | [] => []
  | c :: cs => if sep.isPrefixOf (c :: cs) then [] else c :: takeBefore sep cs

/-- Prefix of `s` before its first occurrence of a space-parenthesis pair,
as the source's `f.split(' (')[0]`. -/
def splitParen (s : String) : String := String.mk (takeBefore [' ', '('] s.data)

/-- Models Python substring containment `pat in s`. -/
def containsSubAux (pat : List Char) : List Char → Bool
  | [] => pat.isEmpty
  | c :: cs => pat.isPrefixOf (c :: cs) || containsSubAux pat cs

def containsSub (s pat : String) : Bool := containsSubAux pat.data s.data

/-- Models Python `s.count(pat)`: number of non-overlapping occurrences,
scanning from the left. -/
def countSubAux (pat : List Char) : List Char → Nat
  | [] => 0
  | c :: cs =>
    if pat.isPrefixOf (c :: cs) then 1 + countSubAux pat (cs.drop (pat.length - 1))
    else countSubAux pat cs
termination_by cs => cs.length
decreasing_by
  · simp only [List.length_cons]
    have := List.length_drop (pat.length - 1) cs
    omega
  · simp

def countSub (s pat : String) : Nat := countSubAux pat.data s.data

/-- Models `os.path.splitext(name)[1]`: the extension including its dot,
empty when the last dot is leading or the name (up to the last dot) is all
dots. -/
def extOf (nm : String) : String :=
  let cs := nm.data
  match (cs.reverse.findIdx? (· == '.')) with
  | none => ""
  | some j =>
    let i := cs.length - 1 - j
    if i > 0 && (cs.take i).any (· != '.') then String.mk (cs.drop i) else ""

/-- Token of a shell-style glob pattern (`fnmatch` semantics). -/
inductive GlobTok where
  | star
  | qmark
  | lit (c : Char)
  | chSet (neg : Bool) (cs : List Char)
deriving DecidableEq

/-- Scans for the closing bracket of a glob character set, returning the
set's content and the remainder of the pattern. -/
def findClose : List Char → List Char → Option (List Char × List Char)
  | [], _ => none
  | c :: rest, acc =>
    if c = ']' then some (acc.reverse, rest) else findClose rest (c :: acc)

theorem findClose_length :
    ∀ cs acc content rest, findClose cs acc = some (content, rest) →
      rest.length < cs.length := by
  intro cs
  induction cs with
  | nil => intro acc content rest h; simp [findClose] at h
  | cons c cs ih =>
    intro acc content rest h
    simp only [findClose] at h
    split at h
    · simp only [Option.some.injEq, Prod.mk.injEq] at h
      obtain ⟨-, h2⟩ := h
      subst h2
      simp
    · have := ih _ _ _ h
      simp
      omega

/-- The sublist of the pattern a glob character set is scanned in, with the
characters treated as literal members from the start (a leading `!` after
the bracket negates, and a `]` right after that is a literal member), as in
`fnmatch.translate`. -/
def bracketTarget (cs : List Char) : List Char × List Char :=
  match cs with
  | '!' :: ']' :: rest => (rest, [']'])
  | '!' :: rest => (rest, [])
  | ']' :: rest => (rest, [']'])
  | _ => (cs, [])

def bracketNeg (cs : List Char) : Bool :=
  match cs with
  | '!' :: _ => true
  | _ => false

theorem bracketTarget_length (cs : List Char) : (bracketTarget cs).1.length ≤ cs.length := by
  unfold bracketTarget
  split <;> simp <;> omega

/-- Parses the body of a glob character set after an opening bracket; an
unterminated set means the bracket was a literal character (`none`). -/
def bracketParse (cs : List Char) : Option (Bool × List Char × List Char) :=
  (findClose (bracketTarget cs).1 (bracketTarget cs).2).map
    (fun p => (bracketNeg cs, p.1, p.2))

theorem bracketParse_length {cs : List Char} {neg : Bool} {content rest : List Char}
    (h : bracketParse cs = some (neg, content, rest)) : rest.length ≤ cs.length := by
  unfold bracketParse at h
  cases hf : findClose (bracketTarget cs).1 (bracketTarget cs).2 with
  | none => rw [hf] at h; simp at h
  | some p =>
    obtain ⟨p1, p2⟩ := p
    rw [hf] at h
    have h2 := findClose_length _ _ _ _ hf
    have h3 := bracketTarget_length cs
    simp only [Option.map, Option.some.injEq, Prod.mk.injEq] at h
    obtain ⟨h1, h2, hr⟩ := h
    subst hr
    omega

/-- Tokenizes a glob pattern. -/
def globToks (cs : List Char) : List GlobTok :=
  match cs with
  | [] => []
  | '*' :: ps => .star :: globToks ps
  | '?' :: ps => .qmark :: globToks ps
  | '[' :: ps =>
    match h : bracketParse ps with
    | some (neg, content, rest) => .chSet neg content :: globToks rest
    | none => .lit '[' :: globToks ps
  | c :: ps => .lit c :: globToks ps
termination_by cs.length
decreasing_by
  · simp
  · simp
  · have := bracketParse_length h
    simp
    omega
  · simp
  · simp

/-- Membership in a glob character set, with `a-b` ranges; a trailing dash
is a literal member. -/
def setMatch : List Char → Char → Bool
  | [], _ => false
  | [a], c => a == c
  | a :: '-' :: b :: rest, c => (a ≤ c && c ≤ b) || setMatch rest c
  | a :: rest, c => a == c || setMatch rest c

/-- Matches a token sequence against a string, shell-glob style: `*` spans
any run, `?` one character, a set one character from (or outside) the set,
and the whole string must be consumed. -/
def tokMatch : List GlobTok → List Char → Bool
  | [], s => s.isEmpty
  | .star :: ts, [] => tokMatch ts []
  | .star :: ts, c :: cs => tokMatch ts (c :: cs) || tokMatch (.star :: ts) cs
  | .qmark :: ts, _ :: cs => tokMatch ts cs
  | .qmark :: _, [] => false
  | .lit a :: ts, c :: cs => a == c && tokMatch ts cs
  | .lit _ :: _, [] => false
  | .chSet neg set :: ts, c :: cs => (neg != setMatch set c) && tokMatch ts cs
  | .chSet _ _ :: _, [] => false
termination_by ts s => (ts.length, s.length)

/-- Models `fnmatch.fnmatch(nm, pat)` (POSIX case behaviour). -/
def fnmatchB (nm pat : String) : Bool := tokMatch (globToks pat.data) nm.data

/-- A file of the scanned tree: base name, the textual encoding of its
modification time, its byte size, and its text content. -/
structure PFile where
  name : String
  mtime : String
  size : Nat
  content : String
deriving DecidableEq

mutual
/-- A directory: its files and its subdirectory entries, each list in the
enumeration order the operating system reports to `os.walk`. -/
inductive Dir where
  | mk : List PFile → Entries → Dir
/-- Named subdirectories of a directory, in enumeration order. -/
inductive Entries where
  | nil : Entries
  | cons : String → Dir → Entries → Entries
end

def Dir.files : Dir → List PFile
  | .mk fs _ => fs

def DEFAULT_IGNORE_DIRS : List String :=
  [".git", "__pycache__", "node_modules", ".vscode", ".idea", "venv", "env", "dist", "build"]

def DEFAULT_IGNORE_EXTENSIONS : List String :=
  [".pyc", ".pyo", ".o", ".so", ".dll", ".exe", ".DS_Store", ".log", ".tmp"]

def DEFAULT_MAX_FILE_SIZE : Nat := 1024 * 1024

def DEFAULT_MAX_TOTAL_SIZE : Nat := 10 * 1024 * 1024

/-- A directory name is pruned from the walk when it is in the static
ignore set or matches a caller glob pattern (the source's
`all_ignored_dirs` computation, applied before descending). -/
def dirIgnored (patterns : List String) (d : String) : Bool :=
  DEFAULT_IGNORE_DIRS.contains d || patterns.any (fun p => fnmatchB d p)

/-- A file is excluded when its extension is statically ignored or its
relative path matches a caller glob pattern; the hash pass and both scan
passes all use this same test. -/
def fileExcluded (patterns : List String) (relPath nm : String) : Bool :=
  DEFAULT_IGNORE_EXTENSIONS.contains (extOf nm) ||
    patterns.any (fun p => fnmatchB relPath p)

mutual
/-- Models `os.walk(root, topdown=True)` with the source's pruning: the
current directory's files first, then each surviving subdirectory in
enumeration order.  The first component of each entry is the directory's
path components relative to the root. -/
def walkDir (patterns : List String) : Dir → List (List String × List PFile)
  | .mk fs ss => ([], fs) :: walkEntries patterns ss
def walkEntries (patterns : List String) : Entries → List (List String × List PFile)
  | .nil => []
  | .cons n d rest =>
    (if dirIgnored patterns n then []
     else (walkDir patterns d).map (fun q => (n :: q.1, q.2))) ++ walkEntries patterns rest
end

/-- The relative path of a file, components joined as `os.path.relpath`
renders them. -/
def relPathOf (pre : List String) (nm : String) : String :=
  String.intercalate "/" (pre ++ [nm])

/-- Lexicographic code-point comparison of character lists, as Python
compares strings. -/
def strLeAux : List Char → List Char → Bool
  | [], _ => true
  | _ :: _, [] => false
  | a :: as, b :: bs =>
    if a.toNat < b.toNat then true
    else if b.toNat < a.toNat then false
    else strLeAux as bs

/-- Python string comparison `a <= b` (code-point lexicographic). -/
def nameLe (a b : String) : Bool := strLeAux a.data b.data

/-- Python `sorted(files)` on a directory listing: sort by name. -/
def sortFiles (fs : List PFile) : List PFile :=
  List.insertionSort (fun a b => nameLe a.name b.name = true) fs

/-- The three `hasher.update` chunks one tuple contributes: relative path,
`str(st_mtime)`, `str(st_size)`. -/
def tupleChunks (t : String × String × Nat) : List String :=
  [t.1, t.2.1, decRepr t.2.2]

/-- The filter test and tuple extraction `calculate_project_hash` performs
on one file of a walked directory. -/
def tupleOf (patterns : List String) (pre : List String) (f : PFile) :
    Option (String × String × Nat) :=
  if fileExcluded patterns (relPathOf pre f.name) f.name then none
  else some (relPathOf pre f.name, f.mtime, f.size)

/-- The (relative path, mtime encoding, size) tuples `calculate_project_hash`
feeds the hash, in the order it feeds them: walk order with each
directory's files sorted, extension and pattern filters applied.  The size
budgets are not consulted here. -/
def projectTuples (patterns : List String) (root : Dir) : List (String × String × Nat) :=
  (walkDir patterns root).flatMap fun q => (sortFiles q.2).filterMap (tupleOf patterns q.1)

/-- Models `calculate_project_hash`: the SHA-256 digest abstracted as the
sequence of update chunks (`os.stat` is taken as succeeding; on a failure
the source still feeds the path chunk). -/
def calculate_project_hash (patterns : List String) (root : Dir) : List String :=
  (projectTuples patterns root).flatMap tupleChunks

/-- The filter test `read_project_files` performs on one file of a walked
directory, pairing the relative path with the file. -/
def scanEntryOf (patterns : List String) (pre : List String) (f : PFile) :
    Option (String × PFile) :=
  if fileExcluded patterns (relPathOf pre f.name) f.name then none
  else some (relPathOf pre f.name, f)

/-- The filter-surviving files both passes of `read_project_files` loop
over, with their relative paths, in walk order (these passes do not sort
directory listings). -/
def scanFiles (patterns : List String) (root : Dir) : List (String × PFile) :=
  (walkDir patterns root).flatMap fun q => q.2.filterMap (scanEntryOf patterns q.1)

/-- State of the first (budgeting) pass.  `admitted` makes explicit the
files for which the source increments `file_count` and `total_size`. -/
structure Pass1 where
  fileCount : Nat
  totalSize : Nat
  skipped : List String
  admitted : List (String × PFile)
deriving DecidableEq

/-- The skipped-file record for an oversized file.  The `:.1f` kilobyte
figure is rendered with truncation rather than round-half-even; no claim
depends on the digits, only on the text before the opening parenthesis. -/
def sizeSkipText (rel : String) (size : Nat) : String :=
  rel ++ " (size: " ++ decRepr (size / 1024) ++ "." ++ decRepr (size * 10 / 1024 % 10) ++ "KB)"

def totalSkipText (rel : String) : String := rel ++ " (total size limit reached)"

/-- One step of the budget pass: the single-file test first, then the
cumulative test; a cumulative skip does not grow the running total. -/
def pass1Step (maxFileSize maxTotalSize : Nat) (st : Pass1) (rf : String × PFile) : Pass1 :=
  if rf.2.size > maxFileSize then
    { st with skipped := st.skipped ++ [sizeSkipText rf.1 rf.2.size] }
  else if st.totalSize + rf.2.size > maxTotalSize then
    { st with skipped := st.skipped ++ [totalSkipText rf.1] }
  else
    { st with
        fileCount := st.fileCount + 1,
        totalSize := st.totalSize + rf.2.size,
        admitted := st.admitted ++ [rf] }

/-- The whole budget pass over the filter-surviving files. -/
def budgetPass (maxFileSize maxTotalSize : Nat) (files : List (String × PFile)) : Pass1 :=
  files.foldl (pass1Step maxFileSize maxTotalSize) ⟨0, 0, [], []⟩

/-- The second pass's admitted files: it re-checks the single-file budget
and consults the skip list by comparing the relative path against each
record's text before its first space-parenthesis (the source's
`relative_path in [f.split(' (')[0] for f in skipped_files]`). -/
def readPass (maxFileSize : Nat) (skipped : List String) (files : List (String × PFile)) :
    List (String × PFile) :=
  files.filter fun rf => !(rf.2.size > maxFileSize || (skipped.map splitParen).contains rf.1)

/-- Simplified Python AST node, as much of `ast` as the analyzer consults:
function definitions with their positional-parameter count, class
definitions, string-expression statements (docstring candidates), and a
catch-all node carrying its child nodes. -/
inductive PyNode where
  | functionDef (name : String) (args : Nat) (body : List PyNode)
  | classDef (name : String) (body : List PyNode)
  | exprStr (s : String)
  | other (children : List PyNode)

def PyNode.children : PyNode → List PyNode
  | .functionDef _ _ body => body
  | .classDef _ body => body
  | .exprStr _ => []
  | .other cs => cs

theorem sizeOfAppend (l1 l2 : List PyNode) : sizeOf (l1 ++ l2) + 1 = sizeOf l1 + sizeOf l2 := by
  induction l1 with
  | nil => simp; omega
  | cons a l ih => simp [ih]; omega

theorem children_sizeOf_lt (n : PyNode) : sizeOf n.children < sizeOf n := by
  cases n with
  | functionDef nm a b => simp [PyNode.children]
  | classDef nm b => simp [PyNode.children]
  | exprStr s => cases s; simp [PyNode.children]
  | other cs => simp [PyNode.children]

/-- Models `ast.walk`: yields every node of the forest, breadth first. -/
def pyWalk (queue : List PyNode) : List PyNode :=
  match queue with
  | [] => []
  | n :: rest => n :: pyWalk (rest ++ n.children)
termination_by sizeOf queue
decreasing_by
  have h1 := sizeOfAppend rest n.children
  have h2 := children_sizeOf_lt n
  simp only [List.cons.sizeOf_spec]
  omega

def isFnDef : PyNode → Bool
  | .functionDef _ _ _ => true
  | _ => false

def isClassDef : PyNode → Bool
  | .classDef _ _ => true
  | _ => false

/-- Models `ast.get_docstring` on a definition body: the string of a
leading string-expression statement. -/
def getDocstring (body : List PyNode) : Option String :=
  match body with
  | .exprStr s :: _ => some s
  | _ => none

/-- The issue strings the analyzer appends for one walked node: for a
function definition, a parameter-count issue when it has more than 5
parameters, then a missing-docstring issue, in source order; nothing for
any other node. -/
def nodeIssues : PyNode → List String
  | .functionDef nm args body =>
    (if args > 5 then
      ["Function '" ++ nm ++ "' has " ++ decRepr args ++ " parameters (consider reducing)"]
     else []) ++
    (if (getDocstring body).isNone then
      ["Function '" ++ nm ++ "' lacks documentation"]
     else [])
  | _ => []

/-- The analyzer's result record; absent dictionary keys are `none`. -/
structure Analysis where
  file_path : String
  lines_of_code : Nat
  size_bytes : Nat
  functions : Option Nat
  classes : Option Nat
  complexity_score : Option Nat
  issues : List String
deriving DecidableEq

/-- Python `s.endswith(suffix)`, executable in the kernel. -/
def endsWithB (s suffix : String) : Bool := suffix.data.isSuffixOf s.data

def jsLike (p : String) : Bool :=
  endsWithB p ".js" || endsWithB p ".ts" || endsWithB p ".jsx" || endsWithB p ".tsx"

/-- The three textual pattern checks of the script-like branch, in source
order. -/
def jsIssues (content : String) : List String :=
  (if containsSub content "console.log(" then
    ["Contains console.log statements (remove for production)"] else []) ++
  (if containsSub content "var " then
    ["Uses 'var' declarations (consider 'let' or 'const')"] else []) ++
  (if countSub content "function" > 10 then
    ["High function count (" ++ decRepr (countSub content "function") ++ ") - consider refactoring"]
   else [])

/-- Models `perform_static_analysis`.  `ast.parse` is an external library
call, taken as the parameter `pyParse`: `.ok` is the parsed module body,
`.error e` a parse failure with the text Python renders for the exception
(the source's generic `except Exception` branch is subsumed: either way a
single issue entry is recorded and no structural metrics are set). -/
def perform_static_analysis (pyParse : String → Except String (List PyNode))
    (file_path content : String) : Analysis :=
  let base : Analysis :=
    { file_path := file_path, lines_of_code := (splitlines content).length,
      size_bytes := content.utf8ByteSize, functions := none, classes := none,
      complexity_score := none, issues := [] }
  if endsWithB file_path ".py" then
    match pyParse content with
    | .ok body =>
      let nodes := pyWalk body
      let fns := (nodes.filter isFnDef).length
      let cls := (nodes.filter isClassDef).length
      { base with
          functions := some fns,
          classes := some cls,
          complexity_score := some (fns + cls * 2),
          issues := nodes.flatMap nodeIssues }
    | .error e => { base with issues := ["Syntax error: " ++ e] }
  else if jsLike file_path then { base with issues := jsIssues content }
  else base

/-- A cache entry: creation timestamp (in seconds) and the stored text. -/
structure CacheEntry where
  created : Int
  result : String
deriving DecidableEq

/-- The digest type of the abstracted hash (see the header): the chunk
stream stands for the hex digest computed from it. -/
abbrev Digest := List String

/-- On-disk cache contents: one entry per fingerprint key (the cache
directory holds one well-formed JSON file per key). -/
abbrev CacheState := List (Digest × CacheEntry)

def lookupCache (st : CacheState) (key : Digest) : Option CacheEntry :=
  match st.find? (fun p => p.1 == key) with
  | some p => some p.2
  | none => none

def eraseCache (st : CacheState) (key : Digest) : CacheState :=
  st.filter (fun p => !(p.1 == key))

/-- Models `get_cached_result`: the stored text is returned when the entry
exists and `now - created` is at most `maxAgeHours` hours; an expired
entry is deleted (lazy eviction) and nothing is returned.  Time is in
seconds; `timedelta(hours=h)` is `h * 3600`. -/
def get_cached_result (st : CacheState) (key : Digest) (maxAgeHours now : Int) :
    Option String × CacheState :=
  match lookupCache st key with
  | none => (none, st)
  | some e =>
    if now - e.created > maxAgeHours * 3600 then (none, eraseCache st key)
    else (some e.result, st)

/-- Models `save_cached_result`: writes the entry with `created = now`,
fully replacing any prior entry for the same key. -/
def save_cached_result (st : CacheState) (key : Digest) (result : String) (now : Int) :
    CacheState :=
  (key, ⟨now, result⟩) :: eraseCache st key

/-- The per-file section of the content blob, with the source's
delimiter line. -/
def fileSection (rf : String × PFile) : String :=
  "--- Filename: " ++ rf.1 ++ " ---\n" ++ rf.2.content ++ "\n"

/-- What `read_project_files` returns (content blob, analysis results and
the summary statistics), or the empty-project exit. -/
structure ScanOutput where
  content : String
  analyses : List Analysis
  totalFiles : Nat
  totalSizeBytes : Nat
  skipped : List String
deriving DecidableEq

/-- Models `read_project_files`: the budget pass, the empty-project check
(`sys.exit(1)`, rendered as `Except.error`), then the read pass with the
per-file analysis.  File reads are modelled as succeeding. -/
def read_project_files (pyParse : String → Except String (List PyNode))
    (patterns : List String) (maxFileSize maxTotalSize : Nat)
    (enableStaticAnalysis : Bool) (root : Dir) : Except Unit ScanOutput :=
  let fs := scanFiles patterns root
  let p1 := budgetPass maxFileSize maxTotalSize fs
  if p1.fileCount = 0 then Except.error ()
  else
    let reads := readPass maxFileSize p1.skipped fs
    Except.ok
      { content := String.intercalate "\n" (reads.map fileSection),
        analyses :=
          if enableStaticAnalysis then
            reads.map (fun rf => perform_static_analysis pyParse rf.1 rf.2.content)
          else [],
        totalFiles := reads.length,
        totalSizeBytes := p1.totalSize,
        skipped := p1.skipped }

/-- Outcome of one invocation: a cached report was printed, the run exited
on an empty project, or a fresh report was produced. -/
inductive MainResult where
  | cachedReport (text : String)
  | emptyProjectExit
  | freshReport (text : String)
deriving DecidableEq

/-- Models the cache-relevant flow of `main`: when caching is on, the
project hash and the cache lookup happen first, and a truthy (nonempty)
cached text ends the run; otherwise the scan runs (exiting on an empty
project), the opaque collaborator `diagnose` produces the report from the
content blob and the analysis results, and the report is stored under the
same key when caching is on. -/
def mainModel (pyParse : String → Except String (List PyNode))
    (diagnose : String → List Analysis → String)
    (patterns : List String) (maxFileSize maxTotalSize : Nat)
    (noCache cacheEnabled : Bool) (cacheDurationHours : Int)
    (enableStaticAnalysis : Bool) (root : Dir) (cache : CacheState) (now : Int) :
    MainResult × CacheState :=
  let useCache := !noCache && cacheEnabled
  let key := calculate_project_hash patterns root
  let checked :=
    if useCache then get_cached_result cache key cacheDurationHours now
    else (none, cache)
  let hit :=
    match checked.1 with
    | some s => if s.isEmpty then none else some s
    | none => none
  match hit with
  | some s => (.cachedReport s, checked.2)
  | none =>
    match read_project_files pyParse patterns maxFileSize maxTotalSize
        enableStaticAnalysis root with
    | .error _ => (.emptyProjectExit, checked.2)
    | .ok out =>
      let report := diagnose out.content out.analyses
      if useCache then (.freshReport report, save_cached_result checked.2 key report now)
      else (.freshReport report, checked.2)

/-- Claim-side fingerprint, following the specification's words: the digest
of the (relative path, modification time, size) tuples of exactly the
budget-admitted files, in sorted-path order.  Used only to compare against
what `calculate_project_hash` actually computes. -/
def specFingerprint (patterns : List String) (maxFileSize maxTotalSize : Nat)
    (root : Dir) : List String :=
  (List.insertionSort (fun a b : String × String × Nat => nameLe a.1 b.1 = true)
      ((budgetPass maxFileSize maxTotalSize (scanFiles patterns root)).admitted.map
        (fun rf => (rf.1, rf.2.mtime, rf.2.size)))).flatMap tupleChunks

/-- Two files agree on everything the fingerprint consumes: name,
modification time and size (contents may differ). -/
def metaEq (a b : PFile) : Prop :=
  a.name = b.name ∧ a.mtime = b.mtime ∧ a.size = b.size

/-- Two walk entries agree on the directory path and, file by file, on all
fingerprint-relevant metadata. -/
def dirMetaEq (p q : List String × List PFile) : Prop :=
  p.1 = q.1 ∧ List.Forall₂ metaEq p.2 q.2

/-- Specification-side count of the nodes of a forest satisfying `p`,
descending into every node's children (so nested definitions count). -/
def walkCount (p : PyNode → Bool) (l : List PyNode) : Nat :=
  match l with
  | [] => 0
  | n :: rest => (if p n then 1 else 0) + walkCount p n.children + walkCount p rest
termination_by sizeOf l
decreasing_by
  · have h2 := children_sizeOf_lt n
    simp only [List.cons.sizeOf_spec]
    omega
  · simp only [List.cons.sizeOf_spec]
    omega

/-- A tree whose only file is larger than the default single-file budget. -/
def bigOnlyRoot : Dir := .mk [⟨"big.txt", "9.5", 2097152, "X"⟩] .nil

/-- Two 6-megabyte files in enumeration order. -/
def twoSixMbRoot : Dir :=
  .mk [⟨"a.txt", "1.0", 6291456, "A"⟩, ⟨"b.txt", "2.0", 6291456, "B"⟩] .nil

/-- Two 6-megabyte files where the second one's name contains a
space-parenthesis pair. -/
def parenNameRoot : Dir :=
  .mk [⟨"a.txt", "1.0", 6291456, "A"⟩, ⟨"b (x).txt", "2.0", 6291456, "B"⟩] .nil

/-- Subdirectories `a` then `b`, one file each. -/
def abOrderRoot : Dir :=
  .mk [] (.cons "a" (.mk [⟨"f.txt", "1.0", 1, "x"⟩] .nil)
    (.cons "b" (.mk [⟨"g.txt", "2.0", 2, "y"⟩] .nil) .nil))

/-- The same tree state as `abOrderRoot`, enumerated `b` then `a`. -/
def baOrderRoot : Dir :=
  .mk [] (.cons "b" (.mk [⟨"g.txt", "2.0", 2, "y"⟩] .nil)
    (.cons "a" (.mk [⟨"f.txt", "1.0", 1, "x"⟩] .nil) .nil))

/-- A source file next to a compiled artefact of ignored extension. -/
def pycRootBefore : Dir :=
  .mk [⟨"main.py", "1.0", 10, "pass"⟩, ⟨"x.pyc", "100.0", 5, "c"⟩] .nil

/-- `pycRootBefore` after exactly the ignored file's modification time
changed (every path and size unchanged). -/
def pycRootAfter : Dir :=
  .mk [⟨"main.py", "1.0", 10, "pass"⟩, ⟨"x.pyc", "200.0", 5, "c"⟩] .nil

theorem pass1_fold_measures (maxF maxT : Nat) :
    ∀ (files : List (String × PFile)) (st : Pass1),
      st.totalSize = (st.admitted.map (fun rf => rf.2.size)).sum →
      st.fileCount = st.admitted.length →
      (files.foldl (pass1Step maxF maxT) st).totalSize
          = ((files.foldl (pass1Step maxF maxT) st).admitted.map (fun rf => rf.2.size)).sum
        ∧ (files.foldl (pass1Step maxF maxT) st).fileCount
          = (files.foldl (pass1Step maxF maxT) st).admitted.length := by
  intro files
  induction files with
  | nil => intro st h1 h2; exact ⟨h1, h2⟩
  | cons f fs ih =>
    intro st h1 h2
    simp only [List.foldl_cons]
    apply ih
    · unfold pass1Step
      split
      · exact h1
      · split
        · exact h1
        · simp [h1]
    · unfold pass1Step
      split
      · exact h2
      · split
        · exact h2
        · simp [h2]

theorem pass1_admitted_mem (maxF maxT : Nat) :
    ∀ (files : List (String × PFile)) (st : Pass1) (rf : String × PFile),
      rf ∈ (files.foldl (pass1Step maxF maxT) st).admitted →
      rf ∈ st.admitted ∨ rf ∈ files := by
  intro files
  induction files with
  | nil => intro st rf h; exact Or.inl h
  | cons f fs ih =>
    intro st rf h
    simp only [List.foldl_cons] at h
    rcases ih _ _ h with hmem | hmem
    · unfold pass1Step at hmem
      split at hmem
      · exact Or.inl hmem
      · split at hmem
        · exact Or.inl hmem
        · simp at hmem
          rcases hmem with hmem | hmem
          · exact Or.inl hmem
          · subst hmem; simp
    · simp [hmem]

theorem lookup_eraseCache (st : CacheState) (key : Digest) :
    lookupCache (eraseCache st key) key = none := by
  unfold lookupCache eraseCache
  induction st with
  | nil => simp
  | cons p rest ih =>
    by_cases h : p.1 == key
    · simpa [List.filter_cons, h] using ih
    · have hf : (p.1 == key) = false := by simpa using h
      simp only [List.filter_cons, hf, Bool.not_false, if_true, cond_true]
      simp only [List.find?]
      rw [hf]
      simpa using ih

theorem walkCount_append (p : PyNode → Bool) (l1 l2 : List PyNode) :
    walkCount p (l1 ++ l2) = walkCount p l1 + walkCount p l2 := by
  induction l1 with
  | nil => simp [walkCount]
  | cons n rest ih =>
    rw [List.cons_append, walkCount, walkCount, ih]
    omega

theorem pyWalk_filter_count (p : PyNode → Bool) (l : List PyNode) :
    ((pyWalk l).filter p).length = walkCount p l := by
  have main : ∀ s l, sizeOf l ≤ s → ((pyWalk l).filter p).length = walkCount p l := by
    intro s
    induction s with
    | zero =>
      intro l h
      cases l with
      | nil => simp [pyWalk, walkCount]
      | cons n rest => simp only [List.cons.sizeOf_spec] at h; omega
    | succ s ih =>
      intro l h
      cases l with
      | nil => simp [pyWalk, walkCount]
      | cons n rest =>
        rw [pyWalk, walkCount]
        have hsz : sizeOf (rest ++ n.children) ≤ s := by
          have h1 := sizeOfAppend rest n.children
          have h2 := children_sizeOf_lt n
          simp only [List.cons.sizeOf_spec] at h
          omega
        have hrec := ih _ hsz
        have happ := walkCount_append p rest n.children
        cases hp : p n <;> simp [List.filter_cons, hp, hrec, happ] <;> omega
  exact main (sizeOf l) l le_rfl

theorem flatMap_nodeIssues_filter (l : List PyNode) :
    l.flatMap nodeIssues = (l.filter isFnDef).flatMap nodeIssues := by
  induction l with
  | nil => rfl
  | cons n rest ih => cases n <;> simp [isFnDef, nodeIssues, List.filter_cons, ih]

theorem scanEntry_tuple {patterns : List String} {pre : List String} {f : PFile}
    {rf : String × PFile} (h : scanEntryOf patterns pre f = some rf) :
    tupleOf patterns pre f = some (rf.1, rf.2.mtime, rf.2.size) := by
  unfold scanEntryOf at h
  unfold tupleOf
  split at h
  · exact absurd h (by simp)
  · rename_i hex
    rw [if_neg hex]
    simp only [Option.some.injEq] at h
    rw [← h]

theorem scanFiles_mem_tuple {patterns : List String} {root : Dir} {rf : String × PFile}
    (h : rf ∈ scanFiles patterns root) :
    (rf.1, rf.2.mtime, rf.2.size) ∈ projectTuples patterns root := by
  unfold scanFiles at h
  unfold projectTuples
  simp only [List.mem_flatMap] at h ⊢
  obtain ⟨q, hq, hmem⟩ := h
  refine ⟨q, hq, ?_⟩
  simp only [List.mem_filterMap] at hmem ⊢
  obtain ⟨f, hf, hsome⟩ := hmem
  exact ⟨f, ((List.perm_insertionSort _ q.2).mem_iff).2 hf, scanEntry_tuple hsome⟩

theorem tuple_mem_chunks_sublist {patterns : List String} {root : Dir}
    {t : String × String × Nat} (h : t ∈ projectTuples patterns root) :
    List.Sublist (tupleChunks t) (calculate_project_hash patterns root) := by
  unfold calculate_project_hash
  rw [List.flatMap_def]
  exact List.sublist_flatten_of_mem (List.mem_map_of_mem _ h)

theorem flatMap_tupleChunks_length (l : List (String × String × Nat)) :
    (l.flatMap tupleChunks).length = 3 * l.length := by
  induction l with
  | nil => rfl
  | cons t rest ih => simp [List.flatMap_cons, ih, tupleChunks]; omega

theorem tupleChunks_length (t : String × String × Nat) : (tupleChunks t).length = 3 := rfl

theorem flatMap_middle_eq {pre post : List (String × String × Nat)}
    {t1 t2 : String × String × Nat}
    (h : (pre ++ t1 :: post).flatMap tupleChunks = (pre ++ t2 :: post).flatMap tupleChunks) :
    t1.1 = t2.1 ∧ t1.2.1 = t2.2.1 ∧ decRepr t1.2.2 = decRepr t2.2.2 := by
  rw [List.flatMap_append, List.flatMap_append, List.flatMap_cons, List.flatMap_cons] at h
  have h2 := List.append_cancel_left h
  have h3 := (List.append_inj h2 (by simp [tupleChunks_length])).1
  obtain ⟨t1a, t1b, t1c⟩ := t1
  obtain ⟨t2a, t2b, t2c⟩ := t2
  simp [tupleChunks] at h3
  exact h3

theorem tupleOf_metaEq {patterns : List String} {pre : List String} {a b : PFile}
    (h : metaEq a b) : tupleOf patterns pre a = tupleOf patterns pre b := by
  obtain ⟨hn, hm, hs⟩ := h
  unfold tupleOf
  rw [hn, hm, hs]

theorem filterMap_tupleOf_metaEq {patterns : List String} {pre : List String}
    {l1 l2 : List PFile} (h : List.Forall₂ metaEq l1 l2) :
    l1.filterMap (tupleOf patterns pre) = l2.filterMap (tupleOf patterns pre) := by
  induction h with
  | nil => rfl
  | cons hab hrest ih =>
    rw [List.filterMap_cons, List.filterMap_cons, tupleOf_metaEq hab, ih]

theorem orderedInsert_metaEq {l1 l2 : List PFile} {a b : PFile}
    (hab : metaEq a b) (h : List.Forall₂ metaEq l1 l2) :
    List.Forall₂ metaEq (List.orderedInsert (fun x y => nameLe x.name y.name = true) a l1)
      (List.orderedInsert (fun x y => nameLe x.name y.name = true) b l2) := by
  induction h with
  | nil => exact List.Forall₂.cons hab List.Forall₂.nil
  | @cons x y l1' l2' hxy hrest ih =>
    simp only [List.orderedInsert]
    by_cases hc : nameLe a.name x.name = true
    · rw [if_pos hc, if_pos (by rw [← hab.1, ← hxy.1]; exact hc)]
      exact .cons hab (.cons hxy hrest)
    · rw [if_neg hc, if_neg (by rw [← hab.1, ← hxy.1]; exact hc)]
      exact .cons hxy ih

theorem sortFiles_metaEq {l1 l2 : List PFile} (h : List.Forall₂ metaEq l1 l2) :
    List.Forall₂ metaEq (sortFiles l1) (sortFiles l2) := by
  induction h with
  | nil => exact .nil
  | cons hxy hrest ih =>
    simp only [sortFiles, List.insertionSort]
    exact orderedInsert_metaEq hxy ih

theorem flatMap_tuples_metaEq {patterns : List String}
    {L1 L2 : List (List String × List PFile)} (h : List.Forall₂ dirMetaEq L1 L2) :
    L1.flatMap (fun q => (sortFiles q.2).filterMap (tupleOf patterns q.1))
      = L2.flatMap (fun q => (sortFiles q.2).filterMap (tupleOf patterns q.1)) := by
  induction h with
  | nil => rfl
  | cons hpq hrest ih =>
    obtain ⟨hpath, hfiles⟩ := hpq
    rw [List.flatMap_cons, List.flatMap_cons, ih, hpath,
      filterMap_tupleOf_metaEq (sortFiles_metaEq hfiles)]

theorem projectTuples_metaEq {patterns : List String} {r1 r2 : Dir}
    (h : List.Forall₂ dirMetaEq (walkDir patterns r1) (walkDir patterns r2)) :
    projectTuples patterns r1 = projectTuples patterns r2 := by
  unfold projectTuples
  exact flatMap_tuples_metaEq h

/-- A cache holding a fresh entry under `bigOnlyRoot`'s fingerprint, as an
earlier run with larger budgets would have left it. -/
def staleBudgetCache : CacheState := [(calculate_project_hash [] bigOnlyRoot, ⟨0, "R"⟩)]

/-- A single admitted source file. -/
def mainPyRoot1 : Dir := .mk [⟨"main.py", "1.0", 10, "pass"⟩] .nil

/-- `mainPyRoot1` with only the file's modification time changed. -/
def mainPyRoot2 : Dir := .mk [⟨"main.py", "2.0", 10, "pass"⟩] .nil

/-- `mainPyRoot1` with only the file's content changed. -/
def mainPyRoot3 : Dir := .mk [⟨"main.py", "1.0", 10, "import os"⟩] .nil

/-- C6: with files of sizes 6MB and 6MB in traversal order, a 7MB
single-file budget and a 10MB total budget, the first file is admitted and
the second skipped with the cumulative-budget record; and in general a
skipped file's size is never added to the running total, which always
equals the sum of the admitted files' sizes (each later file being judged
against the total of admitted files only), the admitted count likewise. -/
theorem cumulative_budget_scenario_and_total_invariant :
    ((budgetPass 7340032 10485760 (scanFiles [] twoSixMbRoot)).admitted.map
        (fun rf => rf.1) = ["a.txt"]
      ∧ (budgetPass 7340032 10485760 (scanFiles [] twoSixMbRoot)).skipped
          = ["b.txt (total size limit reached)"]
      ∧ (budgetPass 7340032 10485760 (scanFiles [] twoSixMbRoot)).totalSize = 6291456)
    ∧ ∀ (maxF maxT : Nat) (files : List (String × PFile)),
        (budgetPass maxF maxT files).totalSize
            = ((budgetPass maxF maxT files).admitted.map (fun rf => rf.2.size)).sum
          ∧ (budgetPass maxF maxT files).fileCount
            = (budgetPass maxF maxT files).admitted.length := by
  constructor
  · exact ⟨by decide, by decide, by decide⟩
  · intro maxF maxT files
    simpa [budgetPass] using pass1_fold_measures maxF maxT files ⟨0, 0, [], []⟩ rfl rfl

/-- C3: code bug at a concrete input.  With files `a.txt` (6MB) and
`b (x).txt` (6MB) under a 7MB single-file and 10MB total budget, the
budget pass skips `b (x).txt` with the cumulative record, but the read
pass reads it anyway: the skip list is consulted through the text before
the first space-parenthesis of each record, which for this record is the
truncated name `b`, so the two passes disagree on a path containing
a space-parenthesis pair. -/
theorem paren_skip_read_divergence :
    (budgetPass 7340032 10485760 (scanFiles [] parenNameRoot)).admitted.map
        (fun rf => rf.1) = ["a.txt"]
    ∧ (budgetPass 7340032 10485760 (scanFiles [] parenNameRoot)).skipped
        = ["b (x).txt (total size limit reached)"]
    ∧ (readPass 7340032
          (budgetPass 7340032 10485760 (scanFiles [] parenNameRoot)).skipped
          (scanFiles [] parenNameRoot)).map (fun rf => rf.1)
        = ["a.txt", "b (x).txt"] :=
  ⟨by decide, by decide, by decide⟩

/-- C1 counterexample: under the default budgets `bigOnlyRoot` admits no
file at all, yet the fingerprint contains the over-budget file's tuple and
so differs from the digest of the admitted tuples (`specFingerprint`,
written from the specification): a file skipped by the size budgets still
contributes to the fingerprint. -/
theorem fingerprint_not_admitted_digest :
    (budgetPass 1048576 10485760 (scanFiles [] bigOnlyRoot)).admitted = []
    ∧ calculate_project_hash [] bigOnlyRoot = ["big.txt", "9.5", "2097152"]
    ∧ specFingerprint [] 1048576 10485760 bigOnlyRoot = []
    ∧ calculate_project_hash [] bigOnlyRoot ≠ specFingerprint [] 1048576 10485760 bigOnlyRoot :=
  ⟨by decide, by decide, by decide, by decide⟩

/-- C4 counterexample: `abOrderRoot` and `baOrderRoot` are the same tree
state (the path/mtime/size tuples are a permutation of each other, no path
or metadata differs) enumerated in two different subdirectory orders, and
their fingerprints differ: the digest is not independent of the incidental
traversal order, because only file names within each directory are sorted,
never the directories. -/
theorem fingerprint_depends_on_dir_order :
    (projectTuples [] abOrderRoot).Perm (projectTuples [] baOrderRoot)
    ∧ calculate_project_hash [] abOrderRoot ≠ calculate_project_hash [] baOrderRoot :=
  ⟨by decide, by decide⟩

/-- C5 counterexample: between `pycRootBefore` and `pycRootAfter` exactly
one file's modification time changes (all paths and sizes unchanged), yet
the fingerprints are identical: the changed file has a statically ignored
extension and never enters the hash, so its mtime change does not change
the fingerprint. -/
theorem ignored_mtime_change_keeps_fingerprint :
    pycRootBefore.files.map PFile.mtime = ["1.0", "100.0"]
    ∧ pycRootAfter.files.map PFile.mtime = ["1.0", "200.0"]
    ∧ pycRootBefore.files.map PFile.name = pycRootAfter.files.map PFile.name
    ∧ pycRootBefore.files.map PFile.size = pycRootAfter.files.map PFile.size
    ∧ calculate_project_hash [] pycRootBefore = calculate_project_hash [] pycRootAfter :=
  ⟨by decide, by decide, by decide, by decide, by decide⟩

/-- C2 counterexample: under the default budgets `bigOnlyRoot` admits zero
files, yet the run returns the cached report stored under the tree's
fingerprint instead of failing with EmptyProjectError: the cache lookup
precedes the scan, and the fingerprint ignores the budget configuration,
so an entry written by a run with larger budgets is found and returned. -/
theorem cached_result_for_empty_admission :
    (budgetPass 1048576 10485760 (scanFiles [] bigOnlyRoot)).fileCount = 0
    ∧ (mainModel (fun _ => Except.error "") (fun _ _ => "D") [] 1048576 10485760
          false true 24 true bigOnlyRoot staleBudgetCache 3600).1
        = MainResult.cachedReport "R" :=
  ⟨by decide, by decide⟩

mutual
/-- The same tree with every file's content transformed by `g` (names,
mtimes and sizes untouched). -/
def Dir.mapContents (g : String → String) : Dir → Dir
  | .mk fs ss => .mk (fs.map fun f => ⟨f.name, f.mtime, f.size, g f.content⟩)
      (Entries.mapContents g ss)
def Entries.mapContents (g : String → String) : Entries → Entries
  | .nil => .nil
  | .cons n d rest => .cons n (Dir.mapContents g d) (Entries.mapContents g rest)
end

theorem forall2_metaEq_mapContent (g : String → String) (fs : List PFile) :
    List.Forall₂ metaEq (fs.map fun f => (⟨f.name, f.mtime, f.size, g f.content⟩ : PFile)) fs := by
  induction fs with
  | nil => exact .nil
  | cons f rest ih => exact .cons ⟨rfl, rfl, rfl⟩ ih

theorem forall2_dirMetaEq_map_prepend (n : String)
    {L1 L2 : List (List String × List PFile)} (h : List.Forall₂ dirMetaEq L1 L2) :
    List.Forall₂ dirMetaEq (L1.map fun q => (n :: q.1, q.2))
      (L2.map fun q => (n :: q.1, q.2)) := by
  induction h with
  | nil => exact .nil
  | @cons a b l1 l2 hpq hrest ih =>
    exact .cons ⟨congrArg (List.cons n) hpq.1, hpq.2⟩ ih

theorem forall2_dirMetaEq_append {L1 L2 M1 M2 : List (List String × List PFile)}
    (h1 : List.Forall₂ dirMetaEq L1 L2) (h2 : List.Forall₂ dirMetaEq M1 M2) :
    List.Forall₂ dirMetaEq (L1 ++ M1) (L2 ++ M2) := by
  induction h1 with
  | nil => exact h2
  | cons hpq hrest ih => exact .cons hpq ih

mutual
theorem walkDir_mapContents (patterns : List String) (g : String → String) :
    ∀ d : Dir, List.Forall₂ dirMetaEq (walkDir patterns (Dir.mapContents g d))
      (walkDir patterns d)
  | .mk fs ss =>
    show List.Forall₂ dirMetaEq
        (([], fs.map fun f => ⟨f.name, f.mtime, f.size, g f.content⟩)
          :: walkEntries patterns (Entries.mapContents g ss))
        (([], fs) :: walkEntries patterns ss) from
      .cons ⟨rfl, forall2_metaEq_mapContent g fs⟩
        (walkEntries_mapContents patterns g ss)
theorem walkEntries_mapContents (patterns : List String) (g : String → String) :
    ∀ ss : Entries, List.Forall₂ dirMetaEq (walkEntries patterns (Entries.mapContents g ss))
      (walkEntries patterns ss)
  | .nil => .nil
  | .cons n d rest =>
    show List.Forall₂ dirMetaEq
        ((if dirIgnored patterns n then []
          else (walkDir patterns (Dir.mapContents g d)).map fun q => (n :: q.1, q.2))
          ++ walkEntries patterns (Entries.mapContents g rest))
        ((if dirIgnored patterns n then []
          else (walkDir patterns d).map fun q => (n :: q.1, q.2))
          ++ walkEntries patterns rest) from by
      refine forall2_dirMetaEq_append ?_ (walkEntries_mapContents patterns g rest)
      by_cases hig : dirIgnored patterns n
      · rw [if_pos hig, if_pos hig]
        exact .nil
      · rw [if_neg hig, if_neg hig]
        exact forall2_dirMetaEq_map_prepend n (walkDir_mapContents patterns g d)
end

/-- C1 amended: the fingerprint digests the (path, mtime, size) tuples of
all extension/pattern-filter-surviving files, irrespective of the size
budgets: every file the budget pass admits contributes its chunk triple to
the hash stream, every filter-surviving file the budgets skip contributes
likewise, and file contents never influence the digest. -/
theorem fingerprint_covers_filter_surviving (patterns : List String)
    (maxF maxT : Nat) (root : Dir) :
    (∀ rf, rf ∈ scanFiles patterns root
          ∨ rf ∈ (budgetPass maxF maxT (scanFiles patterns root)).admitted →
        List.Sublist [rf.1, rf.2.mtime, decRepr rf.2.size]
          (calculate_project_hash patterns root))
    ∧ ∀ g : String → String,
        calculate_project_hash patterns (Dir.mapContents g root)
          = calculate_project_hash patterns root := by
  constructor
  · intro rf h
    have hscan : rf ∈ scanFiles patterns root := by
      rcases h with h | h
      · exact h
      · rcases pass1_admitted_mem maxF maxT _ _ _ (by simpa [budgetPass] using h)
          with h' | h'
        · simp at h'
        · exact h'
    simpa [tupleChunks] using tuple_mem_chunks_sublist (scanFiles_mem_tuple hscan)
  · intro g
    unfold calculate_project_hash
    rw [projectTuples_metaEq (walkDir_mapContents patterns g root)]

/-- Closed instance of `fingerprint_covers_filter_surviving`: for
`twoSixMbRoot` the admitted file `a.txt` contributes its chunk triple. -/
theorem fingerprint_covers_filter_surviving_witness :
    List.Sublist ["a.txt", "1.0", decRepr 6291456] (calculate_project_hash [] twoSixMbRoot) :=
  (fingerprint_covers_filter_surviving [] 7340032 10485760 twoSixMbRoot).1
    ("a.txt", ⟨"a.txt", "1.0", 6291456, "A"⟩) (Or.inl (by decide))

/-- C4 amended: the fingerprint is determined by the walked structure and
per-file metadata alone: whenever two trees are enumerated into the same
pruned directory sequence with files agreeing on name, mtime and size
(contents arbitrary, and in particular on any repeated scan of an
unchanged tree in the same enumeration order), the digests coincide.  The
digest is a pure function of the tree, so no wall-clock input exists; it
does however depend on the subdirectory enumeration order (see the
counterexample). -/
theorem fingerprint_meta_determined (patterns : List String) (r1 r2 : Dir)
    (h : List.Forall₂ dirMetaEq (walkDir patterns r1) (walkDir patterns r2)) :
    calculate_project_hash patterns r1 = calculate_project_hash patterns r2 := by
  unfold calculate_project_hash
  rw [projectTuples_metaEq h]

/-- Closed instance of `fingerprint_meta_determined`: a content-only change
leaves the fingerprint unchanged. -/
theorem fingerprint_meta_determined_witness :
    calculate_project_hash [] mainPyRoot1 = calculate_project_hash [] mainPyRoot3 :=
  fingerprint_meta_determined [] mainPyRoot1 mainPyRoot3
    (.cons ⟨rfl, .cons ⟨rfl, rfl, rfl⟩ .nil⟩ .nil)

/-- C5 amended: a change to a fingerprint-contributing file changes the
fingerprint: when two trees' hashed tuple sequences agree except at one
position where only the modification time differs, or only the size
differs, the digests differ; and when one sequence has one contributing
tuple more than the other (a contributing path added or removed), the
digests differ.  A change confined to a filtered-out file is invisible to
the hash (see the counterexample). -/
theorem fingerprint_sensitive_to_contributing_changes
    (patterns : List String) (r1 r2 : Dir) (pre post : List (String × String × Nat)) :
    (∀ rel m1 m2 sz, projectTuples patterns r1 = pre ++ (rel, m1, sz) :: post →
        projectTuples patterns r2 = pre ++ (rel, m2, sz) :: post → m1 ≠ m2 →
        calculate_project_hash patterns r1 ≠ calculate_project_hash patterns r2)
    ∧ (∀ rel m s1 s2, projectTuples patterns r1 = pre ++ (rel, m, s1) :: post →
        projectTuples patterns r2 = pre ++ (rel, m, s2) :: post → s1 ≠ s2 →
        calculate_project_hash patterns r1 ≠ calculate_project_hash patterns r2)
    ∧ (∀ t, projectTuples patterns r1 = pre ++ post →
        projectTuples patterns r2 = pre ++ t :: post →
        calculate_project_hash patterns r1 ≠ calculate_project_hash patterns r2) := by
  refine ⟨?_, ?_, ?_⟩
  · intro rel m1 m2 sz h1 h2 hne heq
    unfold calculate_project_hash at heq
    rw [h1, h2] at heq
    exact hne (flatMap_middle_eq heq).2.1
  · intro rel m s1 s2 h1 h2 hne heq
    unfold calculate_project_hash at heq
    rw [h1, h2] at heq
    exact hne (decRepr_injective (flatMap_middle_eq heq).2.2)
  · intro t h1 h2 heq
    unfold calculate_project_hash at heq
    rw [h1, h2] at heq
    have hlen := congrArg List.length heq
    rw [flatMap_tupleChunks_length, flatMap_tupleChunks_length] at hlen
    simp [List.length_append] at hlen

/-- Closed instance of `fingerprint_sensitive_to_contributing_changes`:
changing the single admitted file's mtime changes the fingerprint. -/
theorem fingerprint_sensitive_witness :
    calculate_project_hash [] mainPyRoot1 ≠ calculate_project_hash [] mainPyRoot2 :=
  (fingerprint_sensitive_to_contributing_changes [] mainPyRoot1 mainPyRoot2 [] []).1
    "main.py" "1.0" "2.0" 10 (by decide) (by decide) (by decide)

/-- C7: `get_cached_result` returns the stored text exactly when an entry
exists for the key and its age is at most the TTL; otherwise it returns
nothing, and when the entry existed but had expired, the on-disk entry is
deleted as a side effect (lazy eviction), so a subsequent lookup finds it
removed. -/
theorem cache_get_ttl_semantics (st : CacheState) (key : Digest) (maxAgeHours now : Int) :
    (lookupCache st key = none → get_cached_result st key maxAgeHours now = (none, st))
    ∧ ∀ e, lookupCache st key = some e →
        (now - e.created ≤ maxAgeHours * 3600 →
          get_cached_result st key maxAgeHours now = (some e.result, st))
        ∧ (now - e.created > maxAgeHours * 3600 →
          get_cached_result st key maxAgeHours now = (none, eraseCache st key)
          ∧ lookupCache (get_cached_result st key maxAgeHours now).2 key = none) := by
  constructor
  · intro hl
    unfold get_cached_result
    rw [hl]
  · intro e hl
    constructor
    · intro hage
      unfold get_cached_result
      rw [hl]
      exact if_neg (by omega)
    · intro hage
      have hget : get_cached_result st key maxAgeHours now = (none, eraseCache st key) := by
        unfold get_cached_result
        rw [hl]
        exact if_pos (by omega)
      refine ⟨hget, ?_⟩
      rw [hget]
      exact lookup_eraseCache st key

/-- Closed instance of `cache_get_ttl_semantics`, following the
specification's scenario: a one-hour-old entry is returned under a 24-hour
TTL, a 25-hour-old entry is not, and in the latter case the entry is gone
afterwards. -/
theorem cache_get_ttl_semantics_witness :
    get_cached_result [(["k"], ⟨0, "V"⟩)] ["k"] 24 3600 = (some "V", [(["k"], ⟨0, "V"⟩)])
    ∧ get_cached_result [(["k"], ⟨0, "V"⟩)] ["k"] 24 90000 = (none, eraseCache [(["k"], ⟨0, "V"⟩)] ["k"])
    ∧ lookupCache (get_cached_result [(["k"], ⟨0, "V"⟩)] ["k"] 24 90000).2 ["k"] = none := by
  refine ⟨?_, ?_, ?_⟩
  · exact ((cache_get_ttl_semantics [(["k"], ⟨0, "V"⟩)] ["k"] 24 3600).2 ⟨0, "V"⟩
      (by decide)).1 (by decide)
  · exact (((cache_get_ttl_semantics [(["k"], ⟨0, "V"⟩)] ["k"] 24 90000).2 ⟨0, "V"⟩
      (by decide)).2 (by decide)).1
  · exact (((cache_get_ttl_semantics [(["k"], ⟨0, "V"⟩)] ["k"] 24 90000).2 ⟨0, "V"⟩
      (by decide)).2 (by decide)).2

/-- C2 amended: whenever the budget pass admits zero files,
`read_project_files` fails with the empty-project exit before any analysis
step and before any cache write, and the run produces no fresh report; the
cache lookup however precedes the scan, so the run ends either with the
empty-project exit or with a previously stored report found under the
tree's fingerprint (possible across budget configurations, since the
fingerprint ignores the budgets). -/
theorem empty_admission_no_fresh_report
    (pyParse : String → Except String (List PyNode))
    (diagnose : String → List Analysis → String) (patterns : List String)
    (maxF maxT : Nat) (noCache cacheEnabled : Bool) (cacheHours : Int)
    (enableStatic : Bool) (root : Dir) (cache : CacheState) (now : Int)
    (h : (budgetPass maxF maxT (scanFiles patterns root)).fileCount = 0) :
    read_project_files pyParse patterns maxF maxT enableStatic root = Except.error ()
    ∧ ((mainModel pyParse diagnose patterns maxF maxT noCache cacheEnabled cacheHours
          enableStatic root cache now).1 = MainResult.emptyProjectExit
        ∨ ∃ s, (mainModel pyParse diagnose patterns maxF maxT noCache cacheEnabled
            cacheHours enableStatic root cache now).1 = MainResult.cachedReport s) := by
  have hread : read_project_files pyParse patterns maxF maxT enableStatic root
      = Except.error () := by
    unfold read_project_files
    rw [if_pos h]
  refine ⟨hread, ?_⟩
  unfold mainModel
  simp only [hread]
  split
  · exact Or.inr ⟨_, rfl⟩
  · exact Or.inl rfl

/-- Closed instance of `empty_admission_no_fresh_report` at an empty
directory with an empty cache. -/
theorem empty_admission_no_fresh_report_witness :
    read_project_files (fun _ => Except.error "") [] 1048576 10485760 true (Dir.mk [] .nil)
        = Except.error ()
    ∧ ((mainModel (fun _ => Except.error "") (fun _ _ => "D") [] 1048576 10485760
          false true 24 true (Dir.mk [] .nil) [] 0).1 = MainResult.emptyProjectExit
        ∨ ∃ s, (mainModel (fun _ => Except.error "") (fun _ _ => "D") [] 1048576 10485760
            false true 24 true (Dir.mk [] .nil) [] 0).1 = MainResult.cachedReport s) :=
  empty_admission_no_fresh_report (fun _ => Except.error "") (fun _ _ => "D") []
    1048576 10485760 false true 24 true (Dir.mk [] .nil) [] 0 (by decide)

/-- C9: the analyzer is total: for every path, content and parse outcome it
returns a result carrying the path, the line count and the byte size; and
when a recognized `.py` file fails to parse, the failure degrades to the
single syntax-error issue with no structural metrics, never to an aborted
scan. -/
theorem analyzer_total_and_degrades (pyParse : String → Except String (List PyNode))
    (path content : String) :
    (perform_static_analysis pyParse path content).file_path = path
    ∧ (perform_static_analysis pyParse path content).lines_of_code
        = (splitlines content).length
    ∧ (perform_static_analysis pyParse path content).size_bytes = content.utf8ByteSize
    ∧ ∀ e, endsWithB path ".py" = true → pyParse content = Except.error e →
        (perform_static_analysis pyParse path content).issues = ["Syntax error: " ++ e]
        ∧ (perform_static_analysis pyParse path content).functions = none
        ∧ (perform_static_analysis pyParse path content).classes = none
        ∧ (perform_static_analysis pyParse path content).complexity_score = none := by
  unfold perform_static_analysis
  refine ⟨?_, ?_, ?_, ?_⟩
  · split
    · split <;> rfl
    · split <;> rfl
  · split
    · split <;> rfl
    · split <;> rfl
  · split
    · split <;> rfl
    · split <;> rfl
  · intro e hpy hparse
    rw [if_pos hpy, hparse]
    exact ⟨rfl, rfl, rfl, rfl⟩

/-- Closed instance of `analyzer_total_and_degrades` on a parse failure. -/
theorem analyzer_total_and_degrades_witness :
    (perform_static_analysis (fun _ => Except.error "bad") "m.py" "(").file_path = "m.py"
    ∧ (perform_static_analysis (fun _ => Except.error "bad") "m.py" "(").issues
        = ["Syntax error: " ++ "bad"]
    ∧ (perform_static_analysis (fun _ => Except.error "bad") "m.py" "(").complexity_score
        = none :=
  ⟨(analyzer_total_and_degrades (fun _ => Except.error "bad") "m.py" "(").1,
    ((analyzer_total_and_degrades (fun _ => Except.error "bad") "m.py" "(").2.2.2 "bad"
      (by decide) rfl).1,
    ((analyzer_total_and_degrades (fun _ => Except.error "bad") "m.py" "(").2.2.2 "bad"
      (by decide) rfl).2.2.2⟩

/-- C10: for every `.py` file whose content parses, the derived complexity
score equals the number of function definitions plus twice the number of
class definitions, both counted through `walkCount`, which descends into
every node's children: nested functions and classes are included. -/
theorem complexity_score_counts_nested (pyParse : String → Except String (List PyNode))
    (path content : String) (body : List PyNode)
    (hpy : endsWithB path ".py" = true) (hparse : pyParse content = Except.ok body) :
    (perform_static_analysis pyParse path content).complexity_score
        = some (walkCount isFnDef body + walkCount isClassDef body * 2)
    ∧ (perform_static_analysis pyParse path content).functions
        = some (walkCount isFnDef body)
    ∧ (perform_static_analysis pyParse path content).classes
        = some (walkCount isClassDef body) := by
  unfold perform_static_analysis
  rw [if_pos hpy, hparse]
  exact ⟨by rw [← pyWalk_filter_count, ← pyWalk_filter_count],
    by rw [← pyWalk_filter_count], by rw [← pyWalk_filter_count]⟩

/-- Closed instance of `complexity_score_counts_nested` on a class with a
nested method: the nested function is counted, giving score 1 + 2. -/
theorem complexity_score_counts_nested_witness :
    (perform_static_analysis
        (fun _ => Except.ok [PyNode.classDef "C" [PyNode.functionDef "m" 1 []]])
        "m.py" "x").complexity_score = some 3
    ∧ walkCount isFnDef [PyNode.classDef "C" [PyNode.functionDef "m" 1 []]] = 1
    ∧ walkCount isClassDef [PyNode.classDef "C" [PyNode.functionDef "m" 1 []]] = 1 := by
  refine ⟨?_, ?_, ?_⟩
  · rw [(complexity_score_counts_nested
        (fun _ => Except.ok [PyNode.classDef "C" [PyNode.functionDef "m" 1 []]])
        "m.py" "x" [PyNode.classDef "C" [PyNode.functionDef "m" 1 []]]
        (by decide) rfl).1]
    simp [walkCount, PyNode.children, isFnDef, isClassDef]
  · simp [walkCount, PyNode.children, isFnDef, isClassDef]
  · simp [walkCount, PyNode.children, isFnDef, isClassDef]

/-- C8: analyzing a recognized `.py` file of 50 lines whose only function
definition has 7 parameters and no leading docstring, and which defines no
class, yields `lines_of_code = 50` and exactly the two issues for that
function: the parameter-count issue and the missing-documentation issue,
in that order. -/
theorem fifty_line_seven_param_scenario
    (pyParse : String → Except String (List PyNode)) (path content nm : String)
    (fb body : List PyNode)
    (hpy : endsWithB path ".py" = true)
    (hlines : (splitlines content).length = 50)
    (hparse : pyParse content = Except.ok body)
    (hfn : (pyWalk body).filter isFnDef = [PyNode.functionDef nm 7 fb])
    (hdoc : getDocstring fb = none)
    (hcls : (pyWalk body).filter isClassDef = []) :
    perform_static_analysis pyParse path content =
      { file_path := path, lines_of_code := 50, size_bytes := content.utf8ByteSize,
        functions := some 1, classes := some 0, complexity_score := some 1,
        issues := ["Function '" ++ nm ++ "' has " ++ decRepr 7
            ++ " parameters (consider reducing)",
          "Function '" ++ nm ++ "' lacks documentation"] } := by
  unfold perform_static_analysis
  rw [if_pos hpy]
  simp only [hparse]
  rw [flatMap_nodeIssues_filter, hfn, hcls, hlines]
  simp [nodeIssues, hdoc]

/-- A fifty-line text. -/
def fiftyLines : String := "x\nx\nx\nx\nx\nx\nx\nx\nx\nx\nx\nx\nx\nx\nx\nx\nx\nx\nx\nx\nx\nx\nx\nx\nx\nx\nx\nx\nx\nx\nx\nx\nx\nx\nx\nx\nx\nx\nx\nx\nx\nx\nx\nx\nx\nx\nx\nx\nx\nx"

/-- Closed instance of `fifty_line_seven_param_scenario`. -/
theorem fifty_line_seven_param_scenario_witness :
    perform_static_analysis (fun _ => Except.ok [PyNode.functionDef "f" 7 []])
        "m.py" fiftyLines =
      { file_path := "m.py", lines_of_code := 50, size_bytes := fiftyLines.utf8ByteSize,
        functions := some 1, classes := some 0, complexity_score := some 1,
        issues := ["Function '" ++ "f" ++ "' has " ++ decRepr 7
            ++ " parameters (consider reducing)",
          "Function '" ++ "f" ++ "' lacks documentation"] } :=
  fifty_line_seven_param_scenario (fun _ => Except.ok [PyNode.functionDef "f" 7 []])
    "m.py" fiftyLines "f" [] [PyNode.functionDef "f" 7 []]
    (by decide) (by decide) rfl
    (by simp [pyWalk, PyNode.children, isFnDef])
    rfl
    (by simp [pyWalk, PyNode.children, isClassDef])
